import Mathlib

/-!
Shallow embedding of flotilla's ctx.go: the handler-chain cursor
(struct `handlers`, methods `Next`, `Run`, `rerun`, `push`) and the
cancellation tree (struct `context`, `cancel`, `propagateCancel`,
`reset`, `replicate`).  Machine integers are modelled as `Int` with the
Go `int8` wrap-around applied explicitly; Go panics are modelled as an
explicit fault flag or an `Except` error; the Go channel `done` is
modelled by two booleans (allocated, closed).
-/

/-- Go int8 wrap-around: the value of an `Int` reduced to [-128, 127]. -/
def wrap8 (n : Int) : Int := (n + 128) % 256 - 128

/-- Go conversion `int8(n)` of a nonnegative (slice-length) value `n`. -/
def int8ofNat (n : Nat) : Int := wrap8 n

theorem wrap8_eq_self {n : Int} (h1 : -128 ≤ n) (h2 : n ≤ 127) : wrap8 n = n := by
  unfold wrap8; omega

theorem wrap8_lb (n : Int) : -128 ≤ wrap8 n := by unfold wrap8; omega

theorem wrap8_ub (n : Int) : wrap8 n ≤ 127 := by unfold wrap8; omega

theorem int8ofNat_le (n : Nat) : int8ofNat n ≤ (n : Int) := by
  unfold int8ofNat wrap8; omega

theorem int8ofNat_mod256 (n : Nat) : int8ofNat (n % 256) = int8ofNat n := by
  unfold int8ofNat wrap8; omega

/-- Identifier of a `Manage` handler. -/
abbrev HId := Nat

/-- A deferred finalizer: the implicit release finalizer pushed by `Run`,
or a handler-pushed one identified by a tag. -/
inductive FinAct where
  | release
  | user (t : Nat)
deriving DecidableEq

/-- Observable behavior of a `Manage` handler towards its ctx: doing nothing
beyond its own work, re-entrantly calling `Next`, pushing a finalizer, or
calling `rerun` with a replacement chain. -/
inductive HBehavior where
  | plain
  | callsNext
  | pushes (t : Nat)
  | reruns (chain : List HId)
deriving DecidableEq

/-- Run-time faults: a Go panic from indexing the managers slice out of
range, or exhaustion of the step budget of the embedding. -/
inductive Fault where
  | fuelOut
  | badIndex
deriving DecidableEq

/-- An event observed during a run: a handler invocation or a finalizer call. -/
inductive Ev where
  | hcall (h : HId)
  | fincall (f : FinAct)
deriving DecidableEq

/-- State of the ctx's `handlers` struct (`index`, `managers`, `deferred`),
plus an observation log and a fault flag standing for a pending Go panic. -/
structure RState where
  index : Int
  managers : List HId
  deferred : List FinAct
  log : List Ev
  fault : Option Fault
deriving DecidableEq

mutual

/-- `ctx.Next`: `c.index++; s := int8(len(c.managers));
for ; c.index < s; c.index++ { c.managers[c.index](c) }`. -/
def nextF (env : HId → HBehavior) : Nat → RState → RState
  | 0, st => { st with fault := some .fuelOut }
  | fuel+1, st =>
    loopF env fuel (int8ofNat st.managers.length) { st with index := wrap8 (st.index + 1) }

/-- The for-loop of `ctx.Next`, with the loop bound `s` captured at entry.
Each iteration checks `c.index < s`, invokes `c.managers[c.index]` (a Go
panic on a negative or out-of-range index is a fault), and then performs
the loop's `c.index++`. -/
def loopF (env : HId → HBehavior) : Nat → Int → RState → RState
  | 0, _, st => { st with fault := some .fuelOut }
  | fuel+1, s, st =>
    if st.index < s then
      if st.index < 0 then { st with fault := some .badIndex }
      else
        match st.managers[st.index.toNat]? with
        | none => { st with fault := some .badIndex }
        | some hid =>
          let st0 := { st with log := st.log ++ [Ev.hcall hid] }
          let st1 :=
            match env hid with
            | .plain => st0
            | .pushes t => { st0 with deferred := st0.deferred ++ [FinAct.user t] }
            | .callsNext => nextF env fuel st0
            | .reruns ch =>
              nextF env fuel
                { st0 with index := if st0.index ≠ -1 then -1 else st0.index,
                           managers := ch }
          if st1.fault.isSome then st1
          else loopF env fuel s { st1 with index := wrap8 (st1.index + 1) }
    else st

end

/-- The `handlers` state produced by `defaulthandlers()` (index -1, empty
deferred list) bound to the given managers chain, with an empty log. -/
def resetR (m : List HId) : RState :=
  { index := -1, managers := m, deferred := [], log := [], fault := none }

/-- `ctx.push`: append a finalizer to the deferred list. -/
def pushF (st : RState) (f : FinAct) : RState :=
  { st with deferred := st.deferred ++ [f] }

/-- `ctx.Run`: push the implicit release finalizer, call `Next`, then execute
the deferred finalizers in order (finalizer execution is observed as
`fincall` events; a panic escaping `Next` skips them, as `Run` uses no
Go `defer`). -/
def runF (env : HId → HBehavior) (fuel : Nat) (st : RState) : RState :=
  let st0 := pushF st FinAct.release
  let st1 := nextF env fuel st0
  if st1.fault.isSome then st1
  else { st1 with log := st1.log ++ st1.deferred.map Ev.fincall }

/-- Handlers that do not replace the chain (no `rerun`). -/
def isGood : HBehavior → Bool
  | .reruns _ => false
  | _ => true

/-- A chain whose handlers never call `rerun`. -/
def goodChain (env : HId → HBehavior) (l : List HId) : Prop :=
  ∀ h ∈ l, isGood (env h) = true

/-- Number of handlers in `l` that re-entrantly call `Next`. -/
def kCount (env : HId → HBehavior) (l : List HId) : Nat :=
  l.countP (fun h => decide (env h = HBehavior.callsNext))

/-- The finalizers pushed by the handlers of `l`, in order. -/
def pushesOf (env : HId → HBehavior) (l : List HId) : List FinAct :=
  l.filterMap (fun h =>
    match env h with
    | .pushes t => some (FinAct.user t)
    | _ => none)

theorem countP_drop_le {α} (p : α → Bool) (l : List α) (i : Nat) :
    (l.drop i).countP p ≤ l.countP p := by
  conv_rhs => rw [← List.take_append_drop i l]
  rw [List.countP_append]; omega

theorem take_drop_cons {α} (l : List α) (sN i : Nat) (hi : i < sN) (hN : i < l.length) :
    (l.take sN).drop i = l[i] :: (l.take sN).drop (i+1) := by
  have h1 : i < (l.take sN).length := by
    rw [List.length_take]; omega
  rw [List.drop_eq_getElem_cons h1, List.getElem_take]

theorem loopF_exit (env : HId → HBehavior) (fuel : Nat) (s : Int) (st : RState)
    (h : ¬ st.index < s) : loopF env (fuel+1) s st = st := by
  simp [loopF, h]

theorem loopF_spec (env : HId → HBehavior) (ids : List HId) (hg : goodChain env ids)
    {s : Int} (hs : s = int8ofNat ids.length)
    (hk : s + kCount env (ids.take s.toNat) ≤ 127) :
    ∀ fuel (i : Nat) (st : RState), st.fault = none → st.managers = ids →
      st.index = (i : Int) → (i : Int) ≤ s → 2 * (s.toNat - i) + 1 ≤ fuel →
      loopF env fuel s st =
        { st with
            index := s + kCount env ((ids.take s.toNat).drop i),
            log := st.log ++ ((ids.take s.toNat).drop i).map Ev.hcall,
            deferred := st.deferred ++ pushesOf env ((ids.take s.toNat).drop i) } := by
  have hsl : s ≤ (ids.length : Int) := by rw [hs]; exact int8ofNat_le ids.length
  have hs127 : s ≤ 127 := by rw [hs]; exact wrap8_ub _
  intro fuel
  induction fuel using Nat.strong_induction_on with
  | _ fuel IH =>
    intro i st hf hm hidx hle hfuel
    cases fuel with
    | zero => omega
    | succ f =>
      obtain ⟨ix, mg, df, lg, ft⟩ := st
      simp only at hf hm hidx
      subst hf hm hidx
      by_cases hi : ((i : Int) < s)
      · -- loop body runs
        have hiN : i < mg.length := by omega
        have hisN : i < s.toNat := by omega
        have hseg : (mg.take s.toNat).drop i = mg[i] :: (mg.take s.toNat).drop (i+1) :=
          take_drop_cons mg s.toNat i hisN hiN
        have hgood : isGood (env mg[i]) = true := hg _ (List.getElem_mem hiN)
        have hKle : kCount env ((mg.take s.toNat).drop i) ≤ kCount env (mg.take s.toNat) :=
          countP_drop_le _ _ _
        simp only [loopF, hi, if_pos, if_true]
        rw [if_neg (by omega : ¬ ((i : Int) < 0))]
        rw [show ((i : Int)).toNat = i by omega]
        rw [List.getElem?_eq_getElem hiN]
        simp only
        cases henv : env mg[i] with
        | plain =>
          have hnext : wrap8 ((i : Int) + 1) = ((i+1 : Nat) : Int) := by
            rw [wrap8_eq_self (by omega) (by omega)]; push_cast; ring
          rw [hnext]
          rw [IH f (by omega) (i+1) _ rfl rfl rfl (by omega) (by omega)]
          simp only [hseg, List.map_cons, List.filterMap_cons, List.countP_cons, henv,
            kCount, pushesOf]
          simp [List.append_assoc]
        | pushes t =>
          have hnext : wrap8 ((i : Int) + 1) = ((i+1 : Nat) : Int) := by
            rw [wrap8_eq_self (by omega) (by omega)]; push_cast; ring
          rw [hnext]
          rw [IH f (by omega) (i+1) _ rfl rfl rfl (by omega) (by omega)]
          simp only [hseg, List.map_cons, List.filterMap_cons, List.countP_cons, henv,
            kCount, pushesOf]
          simp [List.append_assoc]
        | callsNext =>
          obtain ⟨f', rfl⟩ : ∃ f', f = f' + 1 := ⟨f - 1, by omega⟩
          simp only [nextF]
          have hnext : wrap8 ((i : Int) + 1) = ((i+1 : Nat) : Int) := by
            rw [wrap8_eq_self (by omega) (by omega)]; push_cast; ring
          simp only [hnext, ← hs]
          rw [IH f' (by omega) (i+1) _ rfl rfl rfl (by omega) (by omega)]
          simp only
          -- the returned state has fault none; continuation exits the loop
          have hKi : kCount env ((mg.take s.toNat).drop i)
              = kCount env ((mg.take s.toNat).drop (i+1)) + 1 := by
            rw [hseg]; simp [kCount, List.countP_cons, henv]
          have hKib : s + kCount env ((mg.take s.toNat).drop i) ≤ 127 := by omega
          have hwrap : wrap8 (s + (kCount env ((mg.take s.toNat).drop (i+1)) : Int) + 1)
              = s + kCount env ((mg.take s.toNat).drop i) := by
            rw [wrap8_eq_self (by omega) (by omega)]
            omega
          rw [if_neg (by simp)]
          rw [hwrap]
          rw [loopF_exit env f' s _ (by simp)]
          simp only [hseg, List.map_cons, List.filterMap_cons, henv, pushesOf]
          simp [List.append_assoc, hKi]
        | reruns ch =>
          rw [henv] at hgood
          simp [isGood] at hgood
      · -- exit: i = s
        have hieq : (i : Int) = s := le_antisymm hle (not_lt.mp hi)
        have hseg : (mg.take s.toNat).drop i = [] := by
          apply List.drop_eq_nil_of_le
          rw [List.length_take]
          omega
        rw [loopF_exit env f s _ hi]
        rw [hseg]
        simp [kCount, pushesOf, hieq]

theorem nextF_spec (env : HId → HBehavior) (ids : List HId) (hg : goodChain env ids)
    (hk : int8ofNat ids.length + kCount env (ids.take (int8ofNat ids.length).toNat) ≤ 127)
    (fuel : Nat) (hfuel : 2 * (int8ofNat ids.length).toNat + 2 ≤ fuel)
    (st : RState) (hf : st.fault = none) (hm : st.managers = ids) (hidx : st.index = -1) :
    nextF env fuel st =
      { st with
          index := if int8ofNat ids.length ≤ 0 then 0
            else int8ofNat ids.length + kCount env (ids.take (int8ofNat ids.length).toNat),
          log := st.log ++ ((ids.take (int8ofNat ids.length).toNat).map Ev.hcall),
          deferred := st.deferred ++ pushesOf env (ids.take (int8ofNat ids.length).toNat) } := by
  obtain ⟨f, rfl⟩ : ∃ f, fuel = f + 1 := ⟨fuel - 1, by omega⟩
  obtain ⟨ix, mg, df, lg, ft⟩ := st
  simp only at hf hm hidx
  subst hf hm hidx
  simp only [nextF]
  have hw0 : wrap8 (-1 + 1) = ((0 : Nat) : Int) := by
    rw [wrap8_eq_self (by omega) (by omega)]; rfl
  simp only [hw0]
  by_cases hsz : int8ofNat mg.length ≤ 0
  · obtain ⟨f', rfl⟩ : ∃ f', f = f' + 1 := ⟨f - 1, by omega⟩
    rw [loopF_exit env f' _ _ (by simp only; omega)]
    have : (int8ofNat mg.length).toNat = 0 := by omega
    rw [this]
    simp [hsz, pushesOf]
  · rw [loopF_spec env mg hg rfl hk f 0 _ rfl rfl rfl (by omega) (by omega)]
    simp [hsz]

theorem plain_goodChain (env : HId → HBehavior) (ids : List HId)
    (hp : ∀ h ∈ ids, env h = HBehavior.plain) : goodChain env ids := by
  intro h hm; rw [hp h hm]; rfl

theorem plain_kCount (env : HId → HBehavior) (l : List HId)
    (hp : ∀ h ∈ l, env h = HBehavior.plain) : kCount env l = 0 := by
  unfold kCount
  rw [List.countP_eq_zero]
  intro a ha
  simp [hp a ha]

theorem plain_pushesOf (env : HId → HBehavior) (l : List HId)
    (hp : ∀ h ∈ l, env h = HBehavior.plain) : pushesOf env l = [] := by
  unfold pushesOf
  rw [List.filterMap_eq_nil_iff]
  intro a ha
  simp [hp a ha]

/-- C10: the handler-chain cursor stores its index and the chain length as
8-bit signed integers.  For a chain of plain handlers, the invocations
performed by `Next()` from the pre-start sentinel are exactly the positions
below `int8(length)` — which depends only on the length modulo 256; for
length at most 127 this is the whole chain in order, and for length exactly
128 the converted bound is -128 and no handler at all is invoked. -/
theorem c10_int8_cursor (env : HId → HBehavior) (ids : List HId)
    (hp : ∀ h ∈ ids, env h = HBehavior.plain)
    (fuel : Nat) (hfuel : 2 * ids.length + 2 ≤ fuel) :
    (nextF env fuel (resetR ids)).log
      = (ids.take (int8ofNat (ids.length % 256)).toNat).map Ev.hcall
    ∧ (ids.length ≤ 127 →
        (nextF env fuel (resetR ids)).log = ids.map Ev.hcall
        ∧ (nextF env fuel (resetR ids)).fault = none)
    ∧ (ids.length = 128 → (nextF env fuel (resetR ids)).log = []) := by
  have hg : goodChain env ids := plain_goodChain env ids hp
  have hk0 : kCount env (ids.take (int8ofNat ids.length).toNat) = 0 :=
    plain_kCount env _ (fun a ha => hp a (List.mem_of_mem_take ha))
  have hsl := int8ofNat_le ids.length
  have hub : int8ofNat ids.length ≤ 127 := wrap8_ub (ids.length : Int)
  have hlb : -128 ≤ int8ofNat ids.length := wrap8_lb (ids.length : Int)
  rw [nextF_spec env ids hg (by omega) fuel (by omega) _ rfl rfl rfl]
  rw [int8ofNat_mod256]
  refine ⟨by simp [resetR], ?_, ?_⟩
  · intro h127
    have hself : int8ofNat ids.length = (ids.length : Int) := by
      unfold int8ofNat
      rw [wrap8_eq_self (by omega) (by omega)]
    constructor
    · simp only [hself]
      rw [show ((ids.length : Int)).toNat = ids.length by omega, List.take_length]
      simp [resetR]
    · simp [resetR]
  · intro h128
    have hneg : int8ofNat ids.length = -128 := by
      unfold int8ofNat wrap8; omega
    simp only [hneg]
    simp [resetR]

theorem c10_int8_cursor_w :
    (∀ h ∈ [3, 4, 5], (fun _ : HId => HBehavior.plain) h = HBehavior.plain)
    ∧ 2 * [3, 4, 5].length + 2 ≤ 12
    ∧ ((nextF (fun _ : HId => HBehavior.plain) 12 (resetR [3, 4, 5])).log
        = ([3, 4, 5].take (int8ofNat ([3, 4, 5].length % 256)).toNat).map Ev.hcall
      ∧ ([3, 4, 5].length ≤ 127 →
          (nextF (fun _ : HId => HBehavior.plain) 12 (resetR [3, 4, 5])).log
            = [3, 4, 5].map Ev.hcall
          ∧ (nextF (fun _ : HId => HBehavior.plain) 12 (resetR [3, 4, 5])).fault = none)
      ∧ ([3, 4, 5].length = 128 →
          (nextF (fun _ : HId => HBehavior.plain) 12 (resetR [3, 4, 5])).log = [])) :=
  ⟨by decide, by decide,
    c10_int8_cursor (fun _ => HBehavior.plain) [3, 4, 5] (by decide) 12 (by decide)⟩

/-- C4 (amended): for a chain of handlers that may re-entrantly call `Next`
or push finalizers, provided the chain length plus the number of re-entrant
`Next` calls stays within the int8 range (at most 127), `Next()` from the
pre-start sentinel invokes exactly the handlers at indices 0..N-1, each
exactly once, in index order, and the run terminates normally without
faulting.  (Without that bound the int8 cursor overflows: see the
counterexample.) -/
theorem c4_next_in_order (env : HId → HBehavior) (ids : List HId)
    (hg : goodChain env ids)
    (hk : ids.length + kCount env ids ≤ 127)
    (fuel : Nat) (hfuel : 2 * ids.length + 2 ≤ fuel) :
    (nextF env fuel (resetR ids)).log = ids.map Ev.hcall
    ∧ (nextF env fuel (resetR ids)).fault = none := by
  have h127 : ids.length ≤ 127 := by omega
  have hself : int8ofNat ids.length = (ids.length : Int) := by
    unfold int8ofNat
    rw [wrap8_eq_self (by omega) (by omega)]
  have htake : ids.take (int8ofNat ids.length).toNat = ids := by
    rw [hself, show ((ids.length : Int)).toNat = ids.length by omega, List.take_length]
  rw [nextF_spec env ids hg (by rw [htake]; omega) fuel (by rw [hself]; omega) _ rfl rfl rfl]
  rw [htake]
  simp [resetR]

set_option maxRecDepth 100000 in
/-- C4 counterexample: the claim fails as universally stated.  A bound chain
of 128 plain handlers has int8 length -128, so `Next()` invokes no handler at
all; and a 127-handler chain whose first handler re-entrantly calls
`Next()` overflows the int8 cursor when the outer loop resumes (127 + 1
wraps to -128), so the run faults (Go panic from a negative slice index)
instead of terminating normally. -/
theorem c4_next_in_order_cex :
    (nextF (fun _ : HId => HBehavior.plain) 300 (resetR (List.range 128))).log = []
    ∧ (nextF (fun h : HId => if h = 0 then HBehavior.callsNext else HBehavior.plain) 300
        (resetR (List.range 127))).fault = some Fault.badIndex := by
  constructor
  · decide
  · decide

theorem c4_next_in_order_w :
    goodChain (fun _ : HId => HBehavior.plain) [7, 8]
    ∧ [7, 8].length + kCount (fun _ : HId => HBehavior.plain) [7, 8] ≤ 127
    ∧ 2 * [7, 8].length + 2 ≤ 10
    ∧ ((nextF (fun _ : HId => HBehavior.plain) 10 (resetR [7, 8])).log = [7, 8].map Ev.hcall
      ∧ (nextF (fun _ : HId => HBehavior.plain) 10 (resetR [7, 8])).fault = none) :=
  ⟨by intro h hm; rfl, by decide, by decide,
    c4_next_in_order (fun _ => HBehavior.plain) [7, 8] (by intro h hm; rfl) (by decide) 10
      (by decide)⟩

/-- C5: `Run()` pushes the implicit release finalizer before advancing the
chain, and (whenever the chain's execution does not overflow the int8
cursor, hence does not panic) after the chain stops advancing it executes
every registered finalizer — the implicit release one first, then the
handler-pushed ones — exactly once, in append order, strictly after the
last handler invocation. -/
theorem c5_run_finalizers (env : HId → HBehavior) (ids : List HId)
    (hg : goodChain env ids)
    (hk : ids.length + kCount env ids ≤ 127)
    (fuel : Nat) (hfuel : 2 * ids.length + 2 ≤ fuel) :
    (runF env fuel (resetR ids)).log
      = ids.map Ev.hcall ++ Ev.fincall FinAct.release :: (pushesOf env ids).map Ev.fincall
    ∧ (runF env fuel (resetR ids)).fault = none := by
  have h127 : ids.length ≤ 127 := by omega
  have hself : int8ofNat ids.length = (ids.length : Int) := by
    unfold int8ofNat
    rw [wrap8_eq_self (by omega) (by omega)]
  have htake : ids.take (int8ofNat ids.length).toNat = ids := by
    rw [hself, show ((ids.length : Int)).toNat = ids.length by omega, List.take_length]
  simp only [runF, pushF, resetR, List.nil_append]
  rw [nextF_spec env ids hg (by rw [htake]; omega) fuel (by rw [hself]; omega)
      { index := -1, managers := ids, deferred := [FinAct.release], log := [], fault := none }
      rfl rfl rfl]
  rw [htake]
  simp

theorem c5_run_finalizers_w :
    goodChain (fun h : HId => if h = 1 then HBehavior.pushes 9 else HBehavior.plain) [0, 1]
    ∧ [0, 1].length
        + kCount (fun h : HId => if h = 1 then HBehavior.pushes 9 else HBehavior.plain) [0, 1]
        ≤ 127
    ∧ 2 * [0, 1].length + 2 ≤ 10
    ∧ (runF (fun h : HId => if h = 1 then HBehavior.pushes 9 else HBehavior.plain) 10
          (resetR [0, 1])).log
        = [0, 1].map Ev.hcall
          ++ Ev.fincall FinAct.release
            :: (pushesOf (fun h : HId => if h = 1 then HBehavior.pushes 9 else HBehavior.plain)
                  [0, 1]).map Ev.fincall :=
  ⟨by intro h hm; fin_cases hm <;> rfl, by decide, by decide,
    (c5_run_finalizers (fun h => if h = 1 then HBehavior.pushes 9 else HBehavior.plain) [0, 1]
      (by intro h hm; fin_cases hm <;> rfl) (by decide) 10 (by decide)).1⟩

theorem c8_loop (env : HId → HBehavior) (old newIds : List HId) (rp : Nat)
    (hrp : rp < old.length) (hold : old.length ≤ 127) (hnew : newIds.length ≤ 127)
    (hpre : ∀ h ∈ old.take rp, env h = HBehavior.plain)
    (hrb : env old[rp] = HBehavior.reruns newIds)
    (hnp : ∀ h ∈ newIds, env h = HBehavior.plain) :
    ∀ fuel (i : Nat) (st : RState), st.fault = none → st.managers = old →
      st.index = (i : Int) → i ≤ rp → 2 * (rp - i) + 2 * newIds.length + 8 ≤ fuel →
      loopF env fuel (int8ofNat old.length) st =
        { index := wrap8 ((newIds.length : Int) + 1),
          managers := newIds,
          deferred := st.deferred,
          log := st.log ++ ((old.take (rp+1)).drop i).map Ev.hcall ++ newIds.map Ev.hcall,
          fault := if old.length ≤ newIds.length + 1 ∧ newIds.length ≤ 126 then none
            else some Fault.badIndex } := by
  have hsOld : int8ofNat old.length = (old.length : Int) := by
    unfold int8ofNat
    rw [wrap8_eq_self (by omega) (by omega)]
  have hsNew : int8ofNat newIds.length = (newIds.length : Int) := by
    unfold int8ofNat
    rw [wrap8_eq_self (by omega) (by omega)]
  intro fuel
  induction fuel using Nat.strong_induction_on with
  | _ fuel IH =>
    intro i st hf hm hidx hle hfuel
    cases fuel with
    | zero => omega
    | succ f =>
      obtain ⟨ix, mg, df, lg, ft⟩ := st
      simp only at hf hm hidx
      subst hf hm hidx
      have hi : ((i : Int) < int8ofNat mg.length) := by rw [hsOld]; omega
      simp only [loopF, hi, if_true, if_pos]
      rw [if_neg (by omega : ¬ ((i : Int) < 0))]
      rw [show ((i : Int)).toNat = i by omega]
      rw [List.getElem?_eq_getElem (by omega : i < mg.length)]
      simp only
      by_cases hirp : i < rp
      · -- a plain handler before the rerun position
        have hmemt : mg[i] ∈ mg.take rp := by
          have h1 : i < (mg.take rp).length := by rw [List.length_take]; omega
          have := List.getElem_mem h1
          rwa [List.getElem_take] at this
        rw [hpre _ hmemt]
        simp only
        have hnext : wrap8 ((i : Int) + 1) = ((i+1 : Nat) : Int) := by
          rw [wrap8_eq_self (by omega) (by omega)]; push_cast; ring
        rw [hnext]
        rw [IH f (by omega) (i+1) _ rfl rfl rfl (by omega) (by omega)]
        have hseg : (mg.take (rp+1)).drop i = mg[i] :: (mg.take (rp+1)).drop (i+1) :=
          take_drop_cons mg (rp+1) i (by omega) (by omega)
        rw [hseg]
        simp [List.append_assoc]
      · -- the handler at the rerun position
        have hieq : i = rp := by omega
        subst hieq
        rw [hrb]
        simp only
        rw [if_pos (by omega : ¬ ((i : Int) = -1))]
        obtain ⟨f1, rfl⟩ : ∃ f1, f = f1 + 1 := ⟨f - 1, by omega⟩
        simp only [nextF]
        have hw0 : wrap8 (-1 + 1) = ((0 : Nat) : Int) := by
          rw [wrap8_eq_self (by omega) (by omega)]; rfl
        simp only [hw0]
        rw [loopF_spec env newIds (plain_goodChain env newIds hnp) rfl
          (by rw [hsNew, plain_kCount env _ (fun a ha => hnp a (List.mem_of_mem_take ha))]; omega)
          f1 0 _ rfl rfl rfl (by rw [hsNew]; omega) (by rw [hsNew]; omega)]
        simp only [List.drop_zero]
        rw [hsNew, show ((newIds.length : Int)).toNat = newIds.length by omega, List.take_length]
        rw [plain_kCount env newIds hnp, plain_pushesOf env newIds hnp]
        simp only [List.append_nil, Nat.cast_zero, add_zero]
        rw [if_neg (by simp)]
        have hseg : (mg.take (i+1)).drop i = [mg[i]] := by
          rw [take_drop_cons mg (i+1) i (by omega) (by omega)]
          congr 1
          apply List.drop_eq_nil_of_le
          rw [List.length_take]; omega
        by_cases hgood : mg.length ≤ newIds.length + 1 ∧ newIds.length ≤ 126
        · rw [show wrap8 ((newIds.length : Int) + 1) = ((newIds.length : Int) + 1) from by
            rw [wrap8_eq_self (by omega) (by omega)]]
          rw [loopF_exit env f1 _ _ (by
            show ¬ ((newIds.length : Int) + 1 < int8ofNat mg.length)
            rw [hsOld]; omega)]
          rw [if_pos hgood, hseg]
          simp [List.append_assoc]
        · by_cases h127 : newIds.length = 127
          · rw [show wrap8 ((newIds.length : Int) + 1) = (-128 : Int) from by rw [h127]; decide]
            simp only [loopF]
            rw [if_pos (by rw [hsOld]; omega : (-128 : Int) < int8ofNat mg.length)]
            rw [if_pos (by omega : (-128 : Int) < 0)]
            rw [if_neg hgood, hseg]
            simp [List.append_assoc]
          · have hlt : newIds.length + 1 < mg.length := by omega
            rw [show wrap8 ((newIds.length : Int) + 1) = ((newIds.length + 1 : Nat) : Int) from by
              rw [wrap8_eq_self (by omega) (by omega)]; push_cast; ring]
            simp only [loopF]
            rw [if_pos (by rw [hsOld]; omega :
              ((newIds.length + 1 : Nat) : Int) < int8ofNat mg.length)]
            rw [if_neg (by omega : ¬ (((newIds.length + 1 : Nat) : Int) < 0))]
            rw [show (((newIds.length + 1 : Nat) : Int)).toNat = newIds.length + 1 by omega]
            rw [List.getElem?_eq_none (by omega)]
            rw [if_neg hgood, hseg]
            simp [List.append_assoc]

/-- C8: for a context mid-chain (the handler at position rp of the bound
chain calls `rerun` with a replacement chain), the cursor is rewound to the
pre-start sentinel and the bound chain is replaced, after which exactly the
new chain's handlers run, in order, and none of the old chain's remaining
handlers ever runs (the managers field ends as the new chain, so old
handlers are unreachable).  The final fault field additionally records that
the resumed outer loop terminates normally exactly when the old chain is at
most one longer than the new one and the new chain avoids the int8 boundary;
otherwise the resumed loop's stale bound makes it fault. -/
theorem c8_rerun_replaces_chain (env : HId → HBehavior) (old newIds : List HId) (rp : Nat)
    (hrp : rp < old.length) (hold : old.length ≤ 127) (hnew : newIds.length ≤ 127)
    (hpre : ∀ h ∈ old.take rp, env h = HBehavior.plain)
    (hrb : env old[rp] = HBehavior.reruns newIds)
    (hnp : ∀ h ∈ newIds, env h = HBehavior.plain)
    (fuel : Nat) (hfuel : 2 * rp + 2 * newIds.length + 10 ≤ fuel) :
    nextF env fuel (resetR old) =
      { index := wrap8 ((newIds.length : Int) + 1),
        managers := newIds,
        deferred := [],
        log := (old.take (rp+1)).map Ev.hcall ++ newIds.map Ev.hcall,
        fault := if old.length ≤ newIds.length + 1 ∧ newIds.length ≤ 126 then none
          else some Fault.badIndex } := by
  obtain ⟨f, rfl⟩ : ∃ f, fuel = f + 1 := ⟨fuel - 1, by omega⟩
  simp only [nextF, resetR]
  have hw0 : wrap8 (-1 + 1) = ((0 : Nat) : Int) := by
    rw [wrap8_eq_self (by omega) (by omega)]; rfl
  simp only [hw0]
  rw [c8_loop env old newIds rp hrp hold hnew hpre hrb hnp f 0 _ rfl rfl rfl
    (by omega) (by omega)]
  simp

theorem c8_rerun_replaces_chain_w :
    (∀ h ∈ [10, 11, 12].take 1,
      (fun h : HId => if h = 11 then HBehavior.reruns [20, 21] else HBehavior.plain) h
        = HBehavior.plain)
    ∧ (fun h : HId => if h = 11 then HBehavior.reruns [20, 21] else HBehavior.plain) 11
        = HBehavior.reruns [20, 21]
    ∧ (∀ h ∈ [20, 21],
      (fun h : HId => if h = 11 then HBehavior.reruns [20, 21] else HBehavior.plain) h
        = HBehavior.plain)
    ∧ nextF (fun h : HId => if h = 11 then HBehavior.reruns [20, 21] else HBehavior.plain) 20
        (resetR [10, 11, 12]) =
      { index := wrap8 (((20 : Nat) :: [21]).length + 1),
        managers := [20, 21],
        deferred := [],
        log := ([10, 11, 12].take 2).map Ev.hcall ++ [20, 21].map Ev.hcall,
        fault := if [10, 11, 12].length ≤ [20, 21].length + 1 ∧ [20, 21].length ≤ 126 then none
          else some Fault.badIndex } :=
  ⟨by decide, by decide, by decide,
    c8_rerun_replaces_chain
      (fun h => if h = 11 then HBehavior.reruns [20, 21] else HBehavior.plain)
      [10, 11, 12] [20, 21] 1 (by decide) (by decide) (by decide)
      (by decide) (by decide) (by decide) 20 (by decide)⟩

/-- A node of the cancellation tree (Go struct `context`): parent pointer,
child set (`none` models a nil Go map, `some cs` a map with keys `cs`),
the done channel (`hasDone` = channel allocated, `doneClosed` = closed),
and the error slot (error values are numbered). -/
structure CContext where
  parent : Option Nat
  children : Option (List Nat)
  hasDone : Bool
  doneClosed : Bool
  err : Option Nat
deriving DecidableEq

/-- The arena of cancellation nodes; a node id is an index into the list. -/
abbrev CStore := List CContext

/-- Go panics that `cancel` can raise, plus the embedding's step budget. -/
inductive CrashCause where
  | missingCancelError
  | closeOfClosedOrNilChannel
  | badId
  | fuelOut
deriving DecidableEq

/-- Replace the child set of node `id`. -/
def setChildren (s : CStore) (id : Nat) (v : Option (List Nat)) : CStore :=
  match s[id]? with
  | some n => s.set id { n with children := v }
  | none => s

mutual

/-- `context.cancel(removeFromParent, err)`: panics on a nil error; sets
`c.err`, closes `c.done` (a Go panic if the channel is nil or already
closed), cancels every registered child with the same error, nils the child
set, and then — only if `removeFromParent` — runs the original's dead code
`if c.children != nil { delete(c.children, c) }`, which inspects the node's
own (just nilled) child set rather than the parent's. -/
def cancelF : Nat → CStore → Nat → Bool → Option Nat → Except CrashCause CStore
  | 0, _, _, _, _ => .error .fuelOut
  | fuel+1, s, id, removeFromParent, err =>
    match err with
    | none => .error .missingCancelError
    | some e =>
      match s[id]? with
      | none => .error .badId
      | some n =>
        let n1 := { n with err := some e }
        let s1 := s.set id n1
        if n1.hasDone = false ∨ n1.doneClosed = true then .error .closeOfClosedOrNilChannel
        else
          let n2 := { n1 with doneClosed := true }
          let s2 := s1.set id n2
          match cancelList fuel s2 (n2.children.getD []) e with
          | .error p => .error p
          | .ok s3 =>
            let s4 := setChildren s3 id none
            if removeFromParent then
              match s4[id]? with
              | some m =>
                match m.children with
                | none => .ok s4
                | some cs => .ok (setChildren s4 id (some (cs.filter (· ≠ id))))
              | none => .ok s4
            else .ok s4

/-- The `for child := range c.children { child.cancel(false, err) }` loop. -/
def cancelList : Nat → CStore → List Nat → Nat → Except CrashCause CStore
  | 0, _, _, _ => .error .fuelOut
  | _+1, s, [], _ => .ok s
  | fuel+1, s, c :: cs, e =>
    match cancelF fuel s c false (some e) with
    | .error p => .error p
    | .ok s1 => cancelList fuel s1 cs e

end

/-- `propagateCancel(parent, child)`: a no-op when the parent has no done
channel; an immediate `child.cancel(false, parent.err)` when the parent has
already been cancelled; otherwise the child is added to the parent's child
set (allocating it if nil). -/
def propagateCancel (fuel : Nat) (s : CStore) (p child : Nat) : Except CrashCause CStore :=
  match s[p]? with
  | none => .error .badId
  | some pn =>
    if pn.hasDone = false then .ok s
    else
      match pn.err with
      | some e => cancelF fuel s child false (some e)
      | none => .ok (setChildren s p (some (pn.children.getD [] ++ [child])))

/-- The node built by `&context{done: make(chan struct{})}`. -/
def freshNode (par : Option Nat) : CContext :=
  { parent := par, children := none, hasDone := true, doneClosed := false, err := none }

/-- A cancelled version of node `n`: error set, done closed, children nilled. -/
def cancelledNode (n : CContext) (e : Nat) : CContext :=
  { n with err := some e, doneClosed := true, children := none }

/-- The mutable heap record behind a ctx's `*handlers` pointer. -/
structure HRec where
  index : Int
  managers : List HId
  deferred : List FinAct
deriving DecidableEq

/-- The reference cells of a Go `ctx` value: its `*context` node id, its
`*handlers` record id, and its request / response-writer / data-map
references (opaque ids that model pointer identity). -/
structure CtxObj where
  contextRef : Nat
  handlersRef : Nat
  request : Nat
  rwPtr : Nat
  dataRef : Nat
deriving DecidableEq

/-- A heap holding the cancellation nodes and the handlers records. -/
structure World where
  nodes : CStore
  hrecs : List HRec
deriving DecidableEq

/-- `ctx.reset(rq, rw, m)`: binds the new request, installs a brand-new
parentless cancellation node with a fresh done channel, and a brand-new
`defaulthandlers()` record (index -1, nil deferred) bound to `m`. -/
def resetW (w : World) (c : CtxObj) (rq : Nat) (m : List HId) : World × CtxObj :=
  ( { nodes := w.nodes ++ [freshNode none],
      hrecs := w.hrecs ++ [({ index := -1, managers := m, deferred := [] } : HRec)] },
    { c with request := rq, contextRef := w.nodes.length, handlersRef := w.hrecs.length } )

/-- `ctx.replicate()`: allocates a child node whose parent is this ctx's
node, registers it via `propagateCancel`, and returns a shallow copy of the
ctx struct that differs only in its `*context` field — in particular the
copy shares the `*handlers` pointer, the request, the response writer and
the data map. -/
def replicateW (fuel : Nat) (w : World) (c : CtxObj) : Except CrashCause (World × CtxObj) :=
  let childId := w.nodes.length
  let nodes1 := w.nodes ++ [freshNode (some c.contextRef)]
  match propagateCancel fuel nodes1 c.contextRef childId with
  | .error p => .error p
  | .ok nodes2 => .ok ({ w with nodes := nodes2 }, { c with contextRef := childId })

/-- `ctx.Next` invoked through a ctx value: it reads and writes the handlers
record that the ctx's `*handlers` pointer designates. -/
def ctxNext (env : HId → HBehavior) (fuel : Nat) (w : World) (c : CtxObj) : World :=
  match w.hrecs[c.handlersRef]? with
  | none => w
  | some r =>
    let res := nextF env fuel
      ({ index := r.index, managers := r.managers, deferred := r.deferred,
         log := [], fault := none } : RState)
    { w with hrecs := (w.hrecs.set c.handlersRef
        ({ index := res.index, managers := res.managers, deferred := res.deferred } : HRec)) }

/-- C1 (code bug): `cancel` has no already-cancelled guard, so a second
cancel of the same node overwrites the error and then closes the already
closed done channel — a Go runtime panic — instead of being a no-op.  The
first call succeeds and records error 1; the second call with error 2
panics. -/
theorem c1_double_cancel_panics :
    cancelF 10 [freshNode none] 0 true (some 1)
      = .ok [{ parent := none, children := none, hasDone := true,
               doneClosed := true, err := some 1 }]
    ∧ cancelF 10
        [{ parent := none, children := none, hasDone := true,
           doneClosed := true, err := some 1 }]
        0 true (some 2)
      = .error CrashCause.closeOfClosedOrNilChannel := by
  constructor
  · rfl
  · rfl

/-- C2 (code bug): cancelling a registered child with
`removeFromParent = true` leaves the child in its parent's child set: the
removal code reads the node's own child set — which was just set to nil —
and never touches the parent's.  Here node 1 is a child of node 0; after
`cancel(true, 5)` on node 1, node 0's child set still contains 1. -/
theorem c2_detach_from_parent_noop :
    cancelF 10
      [{ parent := none, children := some [1], hasDone := true,
         doneClosed := false, err := none },
       { parent := some 0, children := none, hasDone := true,
         doneClosed := false, err := none }]
      1 true (some 5)
      = .ok
      [{ parent := none, children := some [1], hasDone := true,
         doneClosed := false, err := none },
       { parent := some 0, children := none, hasDone := true,
         doneClosed := true, err := some 5 }] := by
  rfl

/-- C3: after `reset`, the context's cancellation node is brand new (done
channel allocated and open, no error, no children) and its handlers record
is brand new (cursor at the pre-start sentinel -1, empty deferred list,
bound to the given chain) — for every prior state of the world and of the
context. -/
theorem c3_reset_clean (w : World) (c : CtxObj) (rq : Nat) (m : List HId) :
    ∃ n r, (resetW w c rq m).1.nodes[(resetW w c rq m).2.contextRef]? = some n
      ∧ (resetW w c rq m).1.hrecs[(resetW w c rq m).2.handlersRef]? = some r
      ∧ n.hasDone = true ∧ n.doneClosed = false ∧ n.err = none ∧ n.children = none
      ∧ r.index = -1 ∧ r.deferred = [] ∧ r.managers = m := by
  refine ⟨freshNode none, { index := -1, managers := m, deferred := [] },
    ?_, ?_, rfl, rfl, rfl, rfl, rfl, rfl, rfl⟩
  · simp [resetW, List.getElem?_concat_length]
  · simp [resetW, List.getElem?_concat_length]

theorem setChildren_of_mem (s : CStore) (id : Nat) (n : CContext) (v : Option (List Nat))
    (h : s[id]? = some n) : setChildren s id v = s.set id { n with children := v } := by
  simp [setChildren, h]

theorem getElem?_lt_len {α} {s : List α} {id : Nat} {n : α} (h : s[id]? = some n) :
    id < s.length := by
  by_contra hh
  rw [List.getElem?_eq_none (by omega)] at h
  cases h

theorem cancelF_leaf (fuel : Nat) (s : CStore) (id : Nat) (n : CContext) (e : Nat) (rfp : Bool)
    (h : s[id]? = some n) (hd : n.hasDone = true) (hc : n.doneClosed = false)
    (hl : n.children = none) (hfuel : 2 ≤ fuel) :
    cancelF fuel s id rfp (some e) = .ok (s.set id (cancelledNode n e)) := by
  have hid : id < s.length := getElem?_lt_len h
  obtain ⟨f, rfl⟩ : ∃ f, fuel = f + 1 := ⟨fuel - 1, by omega⟩
  obtain ⟨f1, rfl⟩ : ∃ f1, f = f1 + 1 := ⟨f - 1, by omega⟩
  simp only [cancelF, h]
  rw [if_neg (by simp [hd, hc])]
  simp only [hl, Option.getD_none, List.set_set, cancelList]
  rw [setChildren_of_mem _ id ({ n with err := some e, doneClosed := true }) none
    (by rw [List.getElem?_set]; simp [hid, hl])]
  rw [List.set_set]
  cases rfp
  · simp [cancelledNode, hl]
  · simp only [if_true]
    rw [List.getElem?_set]
    simp [hid, cancelledNode, hl]

/-- C7: `propagateCancel` on a node whose done-signal has already fired
(error non-nil) does not add the child to the child set and instead
immediately cancels the child with the node's existing error; on a node
with an allocated done channel that has not yet been cancelled, the child
is added to the registered set and is itself left untouched. -/
theorem c7_register_child (s : CStore) (p c : Nat) (pn cn : CContext)
    (hp : s[p]? = some pn) (hc : s[c]? = some cn) (hpc : p ≠ c)
    (hdone : pn.hasDone = true)
    (hcd : cn.hasDone = true) (hcc : cn.doneClosed = false) (hcl : cn.children = none)
    (fuel : Nat) (hfuel : 2 ≤ fuel) :
    (∀ e, pn.err = some e →
      propagateCancel fuel s p c = .ok (s.set c (cancelledNode cn e))
      ∧ (s.set c (cancelledNode cn e))[p]? = some pn)
    ∧ (pn.err = none →
      propagateCancel fuel s p c = .ok (setChildren s p (some (pn.children.getD [] ++ [c])))
      ∧ (setChildren s p (some (pn.children.getD [] ++ [c])))[c]? = some cn) := by
  constructor
  · intro e he
    constructor
    · simp only [propagateCancel, hp, hdone, he]
      rw [if_neg (by simp)]
      exact cancelF_leaf fuel s c cn e false hc hcd hcc hcl hfuel
    · rw [List.getElem?_set]
      simp [Ne.symm hpc, hp]
  · intro he
    constructor
    · simp only [propagateCancel, hp, hdone, he]
      rw [if_neg (by simp)]
    · rw [setChildren_of_mem s p pn _ hp]
      rw [List.getElem?_set]
      simp [hpc, hc]

theorem c7_register_child_w :
    ([cancelledNode (freshNode none) 9, freshNode none] : CStore)[0]?
        = some (cancelledNode (freshNode none) 9)
    ∧ ([cancelledNode (freshNode none) 9, freshNode none] : CStore)[1]? = some (freshNode none)
    ∧ (0 : Nat) ≠ 1
    ∧ (cancelledNode (freshNode none) 9).hasDone = true
    ∧ (freshNode none).hasDone = true
    ∧ (freshNode none).doneClosed = false
    ∧ (freshNode none).children = none
    ∧ (2 : Nat) ≤ 10
    ∧ ((∀ e, (cancelledNode (freshNode none) 9).err = some e →
        propagateCancel 10 [cancelledNode (freshNode none) 9, freshNode none] 0 1
          = .ok (([cancelledNode (freshNode none) 9, freshNode none] : CStore).set 1
              (cancelledNode (freshNode none) e))
        ∧ (([cancelledNode (freshNode none) 9, freshNode none] : CStore).set 1
              (cancelledNode (freshNode none) e))[0]? = some (cancelledNode (freshNode none) 9))
      ∧ ((cancelledNode (freshNode none) 9).err = none →
        propagateCancel 10 [cancelledNode (freshNode none) 9, freshNode none] 0 1
          = .ok (setChildren [cancelledNode (freshNode none) 9, freshNode none] 0
              (some ((cancelledNode (freshNode none) 9).children.getD [] ++ [1])))
        ∧ (setChildren [cancelledNode (freshNode none) 9, freshNode none] 0
              (some ((cancelledNode (freshNode none) 9).children.getD [] ++ [1])))[1]?
            = some (freshNode none))) :=
  ⟨by decide, by decide, by decide, by decide, by decide, by decide, by decide, by decide,
    c7_register_child [cancelledNode (freshNode none) 9, freshNode none] 0 1
      (cancelledNode (freshNode none) 9) (freshNode none)
      (by decide) (by decide) (by decide) (by decide) (by decide) (by decide) (by decide)
      10 (by decide)⟩

theorem getElem?_set_ne {α} (l : List α) (i j : Nat) (a : α) (h : i ≠ j) :
    (l.set i a)[j]? = l[j]? := by
  rw [List.getElem?_set]
  simp [h]

theorem cancelList_spec (e : Nat) :
    ∀ (cs : List Nat) (fuel : Nat) (s : CStore),
      (∀ cid ∈ cs, ∃ n, s[cid]? = some n ∧ n.hasDone = true ∧ n.doneClosed = false
        ∧ n.children = none) →
      cs.Nodup →
      cs.length + 2 ≤ fuel →
      ∃ s1, cancelList fuel s cs e = .ok s1
        ∧ (∀ cid ∈ cs, ∃ n, s[cid]? = some n ∧ s1[cid]? = some (cancelledNode n e))
        ∧ (∀ j, j ∉ cs → s1[j]? = s[j]?) := by
  intro cs
  induction cs with
  | nil =>
    intro fuel s hok hnd hf
    obtain ⟨f, rfl⟩ : ∃ f, fuel = f + 1 := ⟨fuel - 1, by omega⟩
    exact ⟨s, by simp [cancelList], by simp, fun j _ => rfl⟩
  | cons c cs IH =>
    intro fuel s hok hnd hf
    simp only [List.length_cons] at hf
    obtain ⟨f, rfl⟩ : ∃ f, fuel = f + 1 := ⟨fuel - 1, by omega⟩
    obtain ⟨n, hn, hnd2, hnc, hnl⟩ := hok c (by simp)
    have hcan := cancelF_leaf f s c n e false hn hnd2 hnc hnl (by omega)
    rw [List.nodup_cons] at hnd
    have hok2 : ∀ cid ∈ cs, ∃ m, (s.set c (cancelledNode n e))[cid]? = some m
        ∧ m.hasDone = true ∧ m.doneClosed = false ∧ m.children = none := by
      intro cid hcid
      obtain ⟨m, hm, h1, h2, h3⟩ := hok cid (by simp [hcid])
      refine ⟨m, ?_, h1, h2, h3⟩
      rw [getElem?_set_ne _ _ _ _ (by rintro rfl; exact hnd.1 hcid)]
      exact hm
    obtain ⟨s1, hrun, hset, hfr⟩ := IH f (s.set c (cancelledNode n e)) hok2 hnd.2 (by omega)
    refine ⟨s1, ?_, ?_, ?_⟩
    · simp only [cancelList, hcan, hrun]
    · intro cid hcid
      rcases List.mem_cons.mp hcid with hcid | hcid
      · subst hcid
        refine ⟨n, hn, ?_⟩
        rw [hfr cid hnd.1]
        rw [List.getElem?_set]
        simp [getElem?_lt_len hn]
      · obtain ⟨m, hm, hm1⟩ := hset cid hcid
        refine ⟨m, ?_, hm1⟩
        rw [getElem?_set_ne _ _ _ _ (by rintro rfl; exact hnd.1 hcid)] at hm
        exact hm
    · intro j hj
      rw [List.mem_cons, not_or] at hj
      rw [hfr j hj.2]
      exact getElem?_set_ne _ _ _ _ (fun hh => hj.1 hh.symm)

theorem cancelF_parent (fuel : Nat) (s : CStore) (p : Nat) (n : CContext) (e : Nat)
    (rfp : Bool) (cs : List Nat)
    (h : s[p]? = some n) (hd : n.hasDone = true) (hc : n.doneClosed = false)
    (hcs : n.children.getD [] = cs)
    (hok : ∀ cid ∈ cs, cid ≠ p ∧ ∃ m, s[cid]? = some m ∧ m.hasDone = true
      ∧ m.doneClosed = false ∧ m.children = none)
    (hnd : cs.Nodup)
    (hfuel : cs.length + 3 ≤ fuel) :
    ∃ s1, cancelF fuel s p rfp (some e) = .ok s1
      ∧ s1[p]? = some (cancelledNode n e)
      ∧ (∀ cid ∈ cs, ∃ m, s[cid]? = some m ∧ s1[cid]? = some (cancelledNode m e))
      ∧ (∀ j, j ∉ cs → j ≠ p → s1[j]? = s[j]?) := by
  have hid : p < s.length := getElem?_lt_len h
  have hps : p ∉ cs := fun hmem => (hok p hmem).1 rfl
  obtain ⟨f, rfl⟩ : ∃ f, fuel = f + 1 := ⟨fuel - 1, by omega⟩
  simp only [cancelF, h]
  rw [if_neg (by simp [hd, hc])]
  simp only [List.set_set]
  have hok2 : ∀ cid ∈ cs, ∃ m,
      (s.set p { n with err := some e, doneClosed := true })[cid]? = some m
      ∧ m.hasDone = true ∧ m.doneClosed = false ∧ m.children = none := by
    intro cid hcid
    obtain ⟨hne, m, hm, h1, h2, h3⟩ := hok cid hcid
    exact ⟨m, by rw [getElem?_set_ne _ _ _ _ (Ne.symm hne)]; exact hm, h1, h2, h3⟩
  obtain ⟨s3, hrun, hset, hfr⟩ := cancelList_spec e cs f
    (s.set p { n with err := some e, doneClosed := true }) hok2 hnd (by omega)
  have hchil : ({ n with err := some e, doneClosed := true } : CContext).children.getD [] = cs := by
    simpa using hcs
  rw [show ({ n with err := some e, doneClosed := true } : CContext).children.getD [] = cs
    from hchil]
  simp only [hrun]
  have hs3p : s3[p]? = some ({ n with err := some e, doneClosed := true } : CContext) := by
    rw [hfr p hps]
    rw [List.getElem?_set]
    simp [hid]
  have hs3len : p < s3.length := getElem?_lt_len hs3p
  rw [setChildren_of_mem s3 p _ none hs3p]
  have hfin : (s3.set p ({ n with err := some e, doneClosed := true, children := none } : CContext))
      = s3.set p (cancelledNode n e) := rfl
  refine ⟨s3.set p (cancelledNode n e), ?_, ?_, ?_, ?_⟩
  · cases rfp
    · simp [hfin]
    · simp only [if_true, hfin]
      rw [List.getElem?_set]
      simp [hs3len, cancelledNode]
  · rw [List.getElem?_set]
    simp [hs3len]
  · intro cid hcid
    obtain ⟨m, hm, hm1⟩ := hset cid hcid
    have hne : cid ≠ p := (hok cid hcid).1
    refine ⟨m, ?_, ?_⟩
    · rw [getElem?_set_ne _ _ _ _ (Ne.symm hne)] at hm
      exact hm
    · rw [getElem?_set_ne _ _ _ _ (fun hh => hne hh.symm)]
      exact hm1
  · intro j hj hjp
    rw [getElem?_set_ne _ _ _ _ (fun hh => hjp hh.symm)]
    rw [hfr j hj]
    exact getElem?_set_ne _ _ _ _ (Ne.symm hjp)

/-- C6: cancellation propagates strictly downward and never upward.  For a
parent context whose node is open (with any set of registered leaf
children), `replicate()` registers a fresh replica node; cancelling the
replica leaves the parent's node — done-signal, error and even child set —
unchanged, while cancelling the parent succeeds and marks the replica and
every still-registered child done with the parent's cancellation error. -/
theorem c6_cancel_downward (fuel : Nat) (w : World) (c : CtxObj) (pn : CContext)
    (e e2 : Nat) (cs : List Nat)
    (hp : w.nodes[c.contextRef]? = some pn)
    (hd : pn.hasDone = true) (hopen : pn.doneClosed = false) (herr : pn.err = none)
    (hcs : pn.children.getD [] = cs)
    (hok : ∀ cid ∈ cs, cid ≠ c.contextRef ∧ ∃ m, w.nodes[cid]? = some m ∧ m.hasDone = true
      ∧ m.doneClosed = false ∧ m.children = none)
    (hnd : cs.Nodup)
    (hfuel : cs.length + 4 ≤ fuel) :
    ∃ w1 c1, replicateW fuel w c = .ok (w1, c1)
      ∧ (∃ s2, cancelF fuel w1.nodes c1.contextRef true (some e) = .ok s2
          ∧ s2[c.contextRef]? = w1.nodes[c.contextRef]?)
      ∧ (∃ s3, cancelF fuel w1.nodes c.contextRef true (some e2) = .ok s3
          ∧ (∃ q, s3[c.contextRef]? = some q ∧ q.err = some e2 ∧ q.doneClosed = true)
          ∧ (∀ cid ∈ cs ++ [c1.contextRef], ∃ m, s3[cid]? = some m
              ∧ m.err = some e2 ∧ m.doneClosed = true)) := by
  set p := c.contextRef with hpdef
  have hplen : p < w.nodes.length := getElem?_lt_len hp
  set r := w.nodes.length with hrdef
  have hpr : p ≠ r := by omega
  set nodes1 : CStore := w.nodes ++ [freshNode (some p)] with hn1
  have hn1p : nodes1[p]? = some pn := by
    rw [hn1, List.getElem?_append_left hplen]; exact hp
  have hn1r : nodes1[r]? = some (freshNode (some p)) := by
    rw [hn1, hrdef]; exact List.getElem?_concat_length _ _
  have hprop : propagateCancel fuel nodes1 p r
      = .ok (setChildren nodes1 p (some (pn.children.getD [] ++ [r]))) := by
    simp only [propagateCancel, hn1p, hd, herr]
    rw [if_neg (by simp)]
  have hrep : replicateW fuel w c = .ok
      ({ w with nodes := (setChildren nodes1 p (some (cs ++ [r]))) },
        { c with contextRef := r }) := by
    simp only [replicateW, ← hrdef, ← hn1, hprop, hcs]
  set N2 : CStore := setChildren nodes1 p (some (cs ++ [r])) with hN2
  have hN2eq : N2 = nodes1.set p { pn with children := some (cs ++ [r]) } := by
    rw [hN2, setChildren_of_mem nodes1 p pn _ hn1p]
  have hN2r : N2[r]? = some (freshNode (some p)) := by
    rw [hN2eq, getElem?_set_ne _ _ _ _ hpr]; exact hn1r
  have hN2p : N2[p]? = some { pn with children := some (cs ++ [r]) } := by
    rw [hN2eq, List.getElem?_set]
    simp [getElem?_lt_len hn1p]
  have hcsmall : ∀ cid ∈ cs, cid < w.nodes.length := by
    intro cid hcid
    obtain ⟨_, m, hm, _⟩ := hok cid hcid
    exact getElem?_lt_len hm
  have hN2c : ∀ cid ∈ cs, ∃ m, N2[cid]? = some m ∧ m.hasDone = true
      ∧ m.doneClosed = false ∧ m.children = none := by
    intro cid hcid
    obtain ⟨hne, m, hm, h1, h2, h3⟩ := hok cid hcid
    refine ⟨m, ?_, h1, h2, h3⟩
    rw [hN2eq, getElem?_set_ne _ _ _ _ (Ne.symm hne),
      List.getElem?_append_left (hcsmall cid hcid)]
    exact hm
  refine ⟨_, _, hrep, ?_, ?_⟩
  · -- cancel the replica: the parent's node is untouched
    obtain ⟨f, rfl⟩ : ∃ f, fuel = f + 1 := ⟨fuel - 1, by omega⟩
    refine ⟨N2.set r (cancelledNode (freshNode (some p)) e), ?_, ?_⟩
    · exact cancelF_leaf _ _ _ _ _ _ hN2r rfl rfl rfl (by omega)
    · rw [getElem?_set_ne _ _ _ _ (Ne.symm hpr)]
  · -- cancel the parent: replica and all registered children become done
    have hokall : ∀ cid ∈ cs ++ [r], cid ≠ p ∧ ∃ m, N2[cid]? = some m ∧ m.hasDone = true
        ∧ m.doneClosed = false ∧ m.children = none := by
      intro cid hcid
      rcases List.mem_append.mp hcid with hcid | hcid
      · exact ⟨(hok cid hcid).1, hN2c cid hcid⟩
      · rw [List.mem_singleton] at hcid
        subst hcid
        exact ⟨Ne.symm hpr, freshNode (some p), hN2r, rfl, rfl, rfl⟩
    have hndall : (cs ++ [r]).Nodup := by
      rw [List.nodup_append]
      refine ⟨hnd, List.nodup_singleton r, ?_⟩
      intro a ha hb
      rw [List.mem_singleton] at hb
      subst hb
      exact absurd (hcsmall _ ha) (by omega)
    obtain ⟨s3, hrun, hppost, hcpost, hfr⟩ := cancelF_parent fuel N2 p
      { pn with children := some (cs ++ [r]) } e2 true (cs ++ [r]) hN2p hd hopen
      (by simp) hokall hndall (by simp; omega)
    refine ⟨s3, hrun, ⟨_, hppost, rfl, rfl⟩, ?_⟩
    intro cid hcid
    obtain ⟨m, hm, hm1⟩ := hcpost cid hcid
    exact ⟨cancelledNode m e2, hm1, rfl, rfl⟩

/-- C9 (amended): `replicate()` returns a context sharing the original's
request handle, response-writer handle and data bag reference, and owning a
fresh cancellation node registered as a child of the original's node — but
it also shares the original's `*handlers` pointer (the shallow struct copy
copies the pointer), so the handler-chain cursor is one shared object:
advancing the replica's cursor is the very same operation on the world as
advancing the parent's. -/
theorem c9_replicate_shares (fuel : Nat) (w : World) (c : CtxObj) (pn : CContext)
    (hp : w.nodes[c.contextRef]? = some pn)
    (hd : pn.hasDone = true) (herr : pn.err = none) :
    ∃ w1 c1, replicateW fuel w c = .ok (w1, c1)
      ∧ c1.request = c.request
      ∧ c1.rwPtr = c.rwPtr
      ∧ c1.dataRef = c.dataRef
      ∧ c1.handlersRef = c.handlersRef
      ∧ w1.hrecs = w.hrecs
      ∧ w1.nodes[c1.contextRef]? = some (freshNode (some c.contextRef))
      ∧ (∃ q, w1.nodes[c.contextRef]? = some q
          ∧ q.children = some (pn.children.getD [] ++ [c1.contextRef])
          ∧ q.err = pn.err ∧ q.doneClosed = pn.doneClosed)
      ∧ (∀ env fuel2, ctxNext env fuel2 w1 c1 = ctxNext env fuel2 w1 c) := by
  set p := c.contextRef with hpdef
  have hplen : p < w.nodes.length := getElem?_lt_len hp
  set r := w.nodes.length with hrdef
  have hpr : p ≠ r := by omega
  set nodes1 : CStore := w.nodes ++ [freshNode (some p)] with hn1
  have hn1p : nodes1[p]? = some pn := by
    rw [hn1, List.getElem?_append_left hplen]; exact hp
  have hn1r : nodes1[r]? = some (freshNode (some p)) := by
    rw [hn1, hrdef]; exact List.getElem?_concat_length _ _
  have hprop : propagateCancel fuel nodes1 p r
      = .ok (setChildren nodes1 p (some (pn.children.getD [] ++ [r]))) := by
    simp only [propagateCancel, hn1p, hd, herr]
    rw [if_neg (by simp)]
  have hrep : replicateW fuel w c = .ok
      ({ w with nodes := setChildren nodes1 p (some (pn.children.getD [] ++ [r])) },
        { c with contextRef := r }) := by
    simp only [replicateW, ← hrdef, ← hn1, hprop]
  refine ⟨_, _, hrep, rfl, rfl, rfl, rfl, rfl, ?_, ?_, ?_⟩
  · show (setChildren nodes1 p (some (pn.children.getD [] ++ [r])))[r]? = _
    rw [setChildren_of_mem nodes1 p pn _ hn1p, getElem?_set_ne _ _ _ _ hpr]
    exact hn1r
  · refine ⟨{ pn with children := some (pn.children.getD [] ++ [r]) }, ?_, rfl, rfl, rfl⟩
    show (setChildren nodes1 p (some (pn.children.getD [] ++ [r])))[p]? = _
    rw [setChildren_of_mem nodes1 p pn _ hn1p, List.getElem?_set]
    simp [getElem?_lt_len hn1p]
  · intro env fuel2
    rfl

/-- C9 counterexample: the claim that using the replica leaves the parent's
cursor state unchanged is false.  The replica returned by `replicate()`
shares the parent's handlers record (id 0); after the replica advances its
chain, the record seen through the parent's `*handlers` pointer has moved
from the pre-start sentinel -1 to 1. -/
theorem c9_replicate_shares_cex :
    replicateW 10 (⟨[freshNode none], [⟨-1, [0], []⟩]⟩ : World) (⟨0, 0, 0, 0, 0⟩ : CtxObj)
      = .ok (⟨[⟨none, some [1], true, false, none⟩, freshNode (some 0)], [⟨-1, [0], []⟩]⟩,
             ⟨1, 0, 0, 0, 0⟩)
    ∧ (⟨[⟨none, some [1], true, false, none⟩, freshNode (some 0)],
         [⟨-1, [0], []⟩]⟩ : World).hrecs[(⟨0, 0, 0, 0, 0⟩ : CtxObj).handlersRef]?
        = some ⟨-1, [0], []⟩
    ∧ (ctxNext (fun _ => HBehavior.plain) 10
        (⟨[⟨none, some [1], true, false, none⟩, freshNode (some 0)], [⟨-1, [0], []⟩]⟩ : World)
        (⟨1, 0, 0, 0, 0⟩ : CtxObj)).hrecs[(⟨0, 0, 0, 0, 0⟩ : CtxObj).handlersRef]?
        = some ⟨1, [0], []⟩ := by
  refine ⟨rfl, rfl, rfl⟩

theorem c9_replicate_shares_w :
    ((⟨[freshNode none], [⟨-1, [0], []⟩]⟩ : World).nodes[(⟨0, 0, 0, 0, 0⟩ : CtxObj).contextRef]?
        = some (freshNode none))
    ∧ (freshNode none).hasDone = true
    ∧ (freshNode none).err = none
    ∧ (∃ w1 c1,
        replicateW 10 (⟨[freshNode none], [⟨-1, [0], []⟩]⟩ : World) (⟨0, 0, 0, 0, 0⟩ : CtxObj)
          = .ok (w1, c1)
        ∧ c1.request = (⟨0, 0, 0, 0, 0⟩ : CtxObj).request
        ∧ c1.rwPtr = (⟨0, 0, 0, 0, 0⟩ : CtxObj).rwPtr
        ∧ c1.dataRef = (⟨0, 0, 0, 0, 0⟩ : CtxObj).dataRef
        ∧ c1.handlersRef = (⟨0, 0, 0, 0, 0⟩ : CtxObj).handlersRef
        ∧ w1.hrecs = (⟨[freshNode none], [⟨-1, [0], []⟩]⟩ : World).hrecs
        ∧ w1.nodes[c1.contextRef]?
            = some (freshNode (some (⟨0, 0, 0, 0, 0⟩ : CtxObj).contextRef))
        ∧ (∃ q, w1.nodes[(⟨0, 0, 0, 0, 0⟩ : CtxObj).contextRef]? = some q
            ∧ q.children = some ((freshNode none).children.getD [] ++ [c1.contextRef])
            ∧ q.err = (freshNode none).err ∧ q.doneClosed = (freshNode none).doneClosed)
        ∧ (∀ env fuel2, ctxNext env fuel2 w1 c1
            = ctxNext env fuel2 w1 (⟨0, 0, 0, 0, 0⟩ : CtxObj))) :=
  ⟨by decide, by decide, by decide,
    c9_replicate_shares 10 (⟨[freshNode none], [⟨-1, [0], []⟩]⟩ : World)
      (⟨0, 0, 0, 0, 0⟩ : CtxObj) (freshNode none) (by decide) (by decide) (by decide)⟩

theorem c6_cancel_downward_w :
    ((⟨[freshNode none], []⟩ : World).nodes[(⟨0, 0, 0, 0, 0⟩ : CtxObj).contextRef]?
        = some (freshNode none))
    ∧ (freshNode none).hasDone = true
    ∧ (freshNode none).doneClosed = false
    ∧ (freshNode none).err = none
    ∧ (freshNode none).children.getD [] = []
    ∧ ([] : List Nat).Nodup
    ∧ ([] : List Nat).length + 4 ≤ 10
    ∧ (∃ w1 c1, replicateW 10 (⟨[freshNode none], []⟩ : World) (⟨0, 0, 0, 0, 0⟩ : CtxObj)
          = .ok (w1, c1)
        ∧ (∃ s2, cancelF 10 w1.nodes c1.contextRef true (some 1) = .ok s2
            ∧ s2[(⟨0, 0, 0, 0, 0⟩ : CtxObj).contextRef]?
                = w1.nodes[(⟨0, 0, 0, 0, 0⟩ : CtxObj).contextRef]?)
        ∧ (∃ s3, cancelF 10 w1.nodes (⟨0, 0, 0, 0, 0⟩ : CtxObj).contextRef true (some 2)
              = .ok s3
            ∧ (∃ q, s3[(⟨0, 0, 0, 0, 0⟩ : CtxObj).contextRef]? = some q
                ∧ q.err = some 2 ∧ q.doneClosed = true)
            ∧ (∀ cid ∈ ([] : List Nat) ++ [c1.contextRef], ∃ m, s3[cid]? = some m
                ∧ m.err = some 2 ∧ m.doneClosed = true))) :=
  ⟨by decide, by decide, by decide, by decide, by decide, by decide, by decide,
    c6_cancel_downward 10 (⟨[freshNode none], []⟩ : World) (⟨0, 0, 0, 0, 0⟩ : CtxObj)
      (freshNode none) 1 2 [] (by decide) (by decide) (by decide) (by decide) (by decide)
      (by decide) (by decide) (by decide)⟩
